import Mathlib

/-!
Verification of the multi-turn NLP context manager of the planner-agent
repository (`src/nlp/context_manager.py`).

The Python code is shallowly embedded below.  Datetimes are modelled as a
rata-die day number (days since 1970-01-01) plus hour/minute/second/microsecond
fields; `datetime.replace` (which raises `ValueError` on out-of-range fields)
is modelled as an `Except`-valued function, and `timedelta(days=n)` as plain
addition on the day number.  Strings are processed as `List Char`; the ASCII
lowering and whitespace conventions used by the Python code on its inputs are
reproduced directly.  The three `re.search` clock-time patterns of
`TemporalContext.resolve_temporal_expression` are embedded as explicit
leftmost-match scanners with the same backtracking behaviour.

The external NLP collaborator (the spaCy pipeline) is a boundary of the core:
per the spec it merely supplies entity spans (text and label) for a turn, and
the intent classifier's per-turn output.  Accordingly `TurnInput` carries the
per-turn extracted mention list and the detected intent as data, and the rest
of `process_turn` (temporal resolution of DATE/TIME/EVENT mentions, entity
tracking, coreference, the relationship graph, reference resolution, context
export) is embedded from the source.
-/

namespace Planner

/-- Python `datetime`, modelled as rata-die days since 1970-01-01 plus the
time-of-day fields.  `timedelta(days=n)` is addition on `days`. -/
structure DateTime where
  days : Int
  hour : Nat
  minute : Nat
  second : Nat
  usec : Nat
deriving DecidableEq, Repr

/-- Days from civil date (Howard Hinnant's algorithm, epoch 1970-01-01 = 0);
used only to write concrete calendar dates in the theorems. -/
def daysFromCivil (y m d : Nat) : Int :=
  let y' := if m ≤ 2 then y - 1 else y
  let era := y' / 400
  let yoe := y' % 400
  let mp := (m + 9) % 12
  let doy := (153 * mp + 2) / 5 + (d - 1)
  let doe := yoe * 365 + yoe / 4 - yoe / 100 + doy
  (era * 146097 + doe : Int) - 719468

/-- A concrete datetime from a civil date and a time of day. -/
def mkDT (y m d hh mm : Nat) : DateTime :=
  ⟨daysFromCivil y m d, hh, mm, 0, 0⟩

/-- `datetime.weekday()`: Monday = 0 .. Sunday = 6.  1970-01-01 (day 0) was a
Thursday (weekday 3). -/
def weekday (t : DateTime) : Int :=
  (t.days + 3) % 7

/-- `timedelta(days := n)` addition. -/
def addDays (t : DateTime) (n : Int) : DateTime :=
  { t with days := t.days + n }

/-- `datetime.replace(hour=..., minute=..., second=..., microsecond=...)`:
keeps the date, substitutes the time-of-day fields, and raises `ValueError`
(modelled as `.error ()`) when a substituted field is out of range. -/
def replaceTime (t : DateTime) (h m sec us : Nat) : Except Unit DateTime :=
  if h ≤ 23 && m ≤ 59 && sec ≤ 59 && us ≤ 999999 then
    .ok ⟨t.days, h, m, sec, us⟩
  else
    .error ()

/-! ### Character/string utilities (ASCII fragment of `str.lower`/`str.strip`) -/

def lowerChar (c : Char) : Char :=
  if 'A' ≤ c && c ≤ 'Z' then Char.ofNat (c.toNat + 32) else c

def isSpaceCh (c : Char) : Bool :=
  c == ' ' || c == '\t' || c == '\n' || c == '\x0d' || c == '\x0b' || c == '\x0c'

def stripL (l : List Char) : List Char :=
  ((l.dropWhile isSpaceCh).reverse.dropWhile isSpaceCh).reverse

/-- `text.lower()` on the character list. -/
def lowerL (s : String) : List Char :=
  s.toList.map lowerChar

def isDigitCh (c : Char) : Bool :=
  '0' ≤ c && c ≤ '9'

def dval (c : Char) : Nat :=
  c.toNat - 48

/-! ### The three clock-time regex patterns, as leftmost-match scanners

`re.search` tries each start position from the left; at a position the
quantifier `\d{1,2}` is greedy (two digits first, then one).  After the
minute digits (or the hour, for the hour-only pattern) comes `\s*` and the
alternation `(am|pm)`; since `a`/`p` are not whitespace the greedy space run
is forced, so no further backtracking arises. -/

/-- `\s*(am|pm)` at the head of the list; returns `true` for `pm`. -/
def matchAmPm : List Char → Option Bool
  | 'a' :: 'm' :: _ => some false
  | 'p' :: 'm' :: _ => some true
  | c :: rest => if isSpaceCh c then matchAmPm rest else none
  | [] => none

/-- `(\d{1,2}):(\d{2})\s*(am|pm)` anchored at the head: (hour, minute, isPm). -/
def m12At : List Char → Option (Nat × Nat × Bool)
  | c0 :: c1 :: c2 :: rest =>
    if isDigitCh c0 then
      if isDigitCh c1 then
        if c2 = ':' then
          match rest with
          | c3 :: c4 :: rest2 =>
            if isDigitCh c3 && isDigitCh c4 then
              (matchAmPm rest2).map fun p => (10 * dval c0 + dval c1, 10 * dval c3 + dval c4, p)
            else none
          | _ => none
        else none
      else if c1 = ':' then
        if isDigitCh c2 then
          match rest with
          | c3 :: rest2 =>
            if isDigitCh c3 then
              (matchAmPm rest2).map fun p => (dval c0, 10 * dval c2 + dval c3, p)
            else none
          | _ => none
        else none
      else none
    else none
  | _ => none

/-- `(\d{1,2}):(\d{2})` anchored at the head: (hour, minute). -/
def m24At : List Char → Option (Nat × Nat)
  | c0 :: c1 :: c2 :: rest =>
    if isDigitCh c0 then
      if isDigitCh c1 then
        if c2 = ':' then
          match rest with
          | c3 :: c4 :: _ =>
            if isDigitCh c3 && isDigitCh c4 then
              some (10 * dval c0 + dval c1, 10 * dval c3 + dval c4)
            else none
          | _ => none
        else none
      else if c1 = ':' then
        if isDigitCh c2 then
          match rest with
          | c3 :: _ => if isDigitCh c3 then some (dval c0, 10 * dval c2 + dval c3) else none
          | _ => none
        else none
      else none
    else none
  | _ => none

/-- `(\d{1,2})\s*(am|pm)` anchored at the head: (hour, isPm).  When two digits
are followed by a failed `\s*(am|pm)`, the one-digit backtrack would place the
second digit where `\s*(am|pm)` must start, which always fails, so it is not
tried. -/
def mh12At : List Char → Option (Nat × Bool)
  | c0 :: rest =>
    if isDigitCh c0 then
      match rest with
      | c1 :: rest2 =>
        if isDigitCh c1 then
          (matchAmPm rest2).map fun p => (10 * dval c0 + dval c1, p)
        else
          (matchAmPm rest).map fun p => (dval c0, p)
      | [] => none
    else none
  | [] => none

/-- Leftmost `re.search`: try the anchored matcher at each position. -/
def searchP {α : Type} (f : List Char → Option α) : List Char → Option α
  | [] => none
  | c :: rest =>
    match f (c :: rest) with
    | some r => some r
    | none => searchP f rest

/-! ### `TemporalContext` -/

/-- The shared 12-hour normalization of `_parse_time_12h`/`_parse_hour_12h`:
`12am → 0`, `12pm` stays `12`, `pm` adds 12 unless the hour is already 12. -/
def norm12 (h : Nat) (isPm : Bool) : Nat :=
  if isPm && h ≠ 12 then h + 12
  else if !isPm && h = 12 then 0
  else h

/-- `TemporalContext._parse_time_12h`. -/
def parseTime12h (h m : Nat) (isPm : Bool) (t : DateTime) : Except Unit DateTime :=
  replaceTime t (norm12 h isPm) m 0 0

/-- `TemporalContext._parse_time_24h`. -/
def parseTime24h (h m : Nat) (t : DateTime) : Except Unit DateTime :=
  replaceTime t h m 0 0

/-- `TemporalContext._parse_hour_12h`. -/
def parseHour12h (h : Nat) (isPm : Bool) (t : DateTime) : Except Unit DateTime :=
  replaceTime t (norm12 h isPm) 0 0 0

def toL (s : String) : List Char := s.toList

/-- The clock-pattern cascade of `resolve_temporal_expression`: the three
regexes are tried in insertion order on the lowered, stripped text. -/
def clockResolve (tl : List Char) (t : DateTime) : Except Unit (Option DateTime) :=
  match searchP m12At tl with
  | some (h, m, p) => (parseTime12h h m p t).map some
  | none =>
    match searchP m24At tl with
    | some (h, m) => (parseTime24h h m t).map some
    | none =>
      match searchP mh12At tl with
      | some (h, p) => (parseHour12h h p t).map some
      | none => .ok none

/-- `TemporalContext.resolve_temporal_expression`.  Returns `.ok none` when no
keyword or clock pattern matches ("unresolved"), `.ok (some dt)` on success,
and `.error ()` when `datetime.replace` raises `ValueError`. -/
def resolveTemporalExpression (text : List Char) (t : DateTime) : Except Unit (Option DateTime) :=
  let tl := stripL (text.map lowerChar)
  if tl = toL "today" ∨ tl = toL "now" then
    (replaceTime t 0 0 0 0).map some
  else if tl = toL "tomorrow" then
    (replaceTime t 0 0 0 0).map fun d => some (addDays d 1)
  else if tl = toL "yesterday" then
    (replaceTime t 0 0 0 0).map fun d => some (addDays d (-1))
  else if tl = toL "next week" then
    (replaceTime t 0 0 0 0).map fun d => some (addDays d (7 - weekday t))
  else if tl = toL "last week" then
    (replaceTime t 0 0 0 0).map fun d => some (addDays d (-(weekday t + 7)))
  else
    clockResolve tl t

/-- The first clock pattern matched on a (lowered, stripped) text, if any,
carries in-range values: normalized hour ≤ 23 and minute ≤ 59.  This is the
condition under which `datetime.replace` cannot raise. -/
def clockMatchOk (tl : List Char) : Bool :=
  match searchP m12At tl with
  | some (h, m, p) => norm12 h p ≤ 23 && m ≤ 59
  | none =>
    match searchP m24At tl with
    | some (h, m) => h ≤ 23 && m ≤ 59
    | none =>
      match searchP mh12At tl with
      | some (h, p) => norm12 h p ≤ 23
      | none => true

/-! ### Entities and conversation state

A `ContextualEntity` is a mutable Python object shared between the turn
record, the `recent_entities` deque and the session entity store; object
identity matters (aliases are added in place).  The heap of entity objects is
modelled as `objs : List EntityObj` (index = creation order) and all other
structures hold indices into it.  The spaCy-derived property bag,
character spans and confidence scores are external enrichment data read by no
verified operation and are not modelled. -/
structure EntityObj where
  text : String
  label : String
  turnId : Nat
  ts : DateTime
  canonicalId : Option String
  aliases : List String
  resolvedDt : Option DateTime
  related : List String
deriving DecidableEq, Repr

def defaultObj : EntityObj :=
  ⟨"", "", 0, ⟨0, 0, 0, 0, 0⟩, none, [], none, []⟩

/-- `ConversationTurn` (immutable snapshot; `entities` are heap indices). -/
structure TurnRec where
  turnId : Nat
  ts : DateTime
  userInput : String
  entities : List Nat
  intent : Option String
  intentConf : Rat
  resolvedRefs : List (String × String)
  contextUpdates : List String
deriving DecidableEq, Repr

/-- The `active_context` scratch dict written by `_update_context`. -/
structure ActiveCtxRec where
  lastIntent : Option String
  activeEntities : List String
  currentTurn : Nat
  timestamp : DateTime
deriving DecidableEq, Repr

/-- `AdvancedNLPContextManager` conversation state.  `store` is the
`session_entities` dict (insertion-ordered association list of canonical id →
heap index), `graph` the `entity_graph` adjacency as a set of directed edges,
`recent` the `recent_entities` deque (maxlen 50) of heap indices. -/
structure ManagerState where
  turns : List TurnRec
  currentTurnId : Nat
  objs : List EntityObj
  store : List (String × Nat)
  graph : List (String × String)
  recent : List Nat
  entityClusters : List (String × List String)
  canonicalEntities : List (String × String)
  ctxWindow : Nat
  intentHistory : List (String × Rat × DateTime)
  refTime : DateTime
  temporalAnchors : List (String × DateTime)
  activeCtx : Option ActiveCtxRec
deriving Repr

/-- Fresh manager state (`__init__`); the initial `reference_time` is the
ambient wall clock, fixed here to the epoch as its value is never observed. -/
def initState : ManagerState :=
  { turns := [], currentTurnId := 0, objs := [], store := [], graph := [],
    recent := [], entityClusters := [], canonicalEntities := [], ctxWindow := 5,
    intentHistory := [], refTime := ⟨0, 0, 0, 0, 0⟩, temporalAnchors := [],
    activeCtx := none }

/-! ### Coreference (`_resolve_coreference`, `_text_similarity`) -/

/-- Words of a text: lower-cased, split on whitespace runs, deduplicated
(Python `set(text.lower().split())`). -/
def splitWSAux : List Char → List Char → List (List Char)
  | [], acc => if acc = [] then [] else [acc.reverse]
  | c :: rest, acc =>
    if isSpaceCh c then
      if acc = [] then splitWSAux rest [] else acc.reverse :: splitWSAux rest []
    else splitWSAux rest (c :: acc)

def wordSet (s : String) : List (List Char) :=
  (splitWSAux (lowerL s) []).dedup

/-- `_text_similarity(text1, text2) > 0.8` as an exact rational comparison:
Jaccard word overlap `|∩| / |∪| > 4/5`, and `0.0` (hence `false`) when either
word set is empty.  (Python computes the ratio in floating point; at
conversation-scale word counts the nearest float to `i/u` crosses `0.8`
exactly when the rational ratio does.) -/
def simGT (text1 text2 : String) : Bool :=
  let w1 := wordSet text1
  let w2 := wordSet text2
  if w1 = [] || w2 = [] then false
  else
    let inter := (w1.filter (· ∈ w2)).length
    let union := (w1 ++ w2).dedup.length
    5 * inter > 4 * union

/-- One step of the `_resolve_coreference` scan: does `existing` match the new
entity's `text`/`label`?  (a) exact case-insensitive text + same label, else
(b) same label and Jaccard similarity > 0.8. -/
def matchEnt (existing : EntityObj) (text label : String) : Bool :=
  (lowerL text = lowerL existing.text && label = existing.label) ||
  (label = existing.label && simGT text existing.text)

/-- The linear first-match-wins scan over `session_entities`. -/
def corefScan (objs : List EntityObj) : List (String × Nat) → String → String →
    Option (String × Nat)
  | [], _, _ => none
  | (k, j) :: rest, text, label =>
    if matchEnt (objs.getD j defaultObj) text label then some (k, j)
    else corefScan objs rest text label

/-- Python dict assignment `d[k] = v`: replace in place, else append. -/
def assocSet : List (String × Nat) → String → Nat → List (String × Nat)
  | [], k, v => [(k, v)]
  | (k', v') :: rest, k, v =>
    if k' = k then (k, v) :: rest else (k', v') :: assocSet rest k v

/-- `set.add` on the alias set. -/
def aliasAdd (o : EntityObj) (t : String) : EntityObj :=
  if t ∈ o.aliases then o else { o with aliases := o.aliases ++ [t] }

/-- Append to `related_entities` if absent. -/
def relAdd (o : EntityObj) (c : String) : EntityObj :=
  if c ∈ o.related then o else { o with related := o.related ++ [c] }

/-! ### Entity tracking (`_track_entity`, `_update_entity_relationships`) -/

/-- `if (a, b) not in graph: add` — set-semantics edge insertion. -/
def addEdge (g : List (String × String)) (a b : String) : List (String × String) :=
  if (a, b) ∈ g then g else g ++ [(a, b)]

/-- `_update_entity_relationships(entity)` for the entity at heap index
`selfIdx`: every other same-turn entity in `recent_entities` gets a
bidirectional edge, and is appended to the entity's `related_entities`. -/
def updateRelationships (s : ManagerState) (selfIdx : Nat) : ManagerState :=
  let e := s.objs.getD selfIdx defaultObj
  let eCid := e.canonicalId.getD ""
  let others := s.recent.filter fun i => (s.objs.getD i defaultObj).turnId = e.turnId
  others.foldl
    (fun st i =>
      let o := st.objs.getD i defaultObj
      if o.canonicalId ≠ e.canonicalId then
        let oCid := o.canonicalId.getD ""
        { st with
          graph := addEdge (addEdge st.graph eCid oCid) oCid eCid,
          objs := st.objs.set selfIdx (relAdd (st.objs.getD selfIdx defaultObj) oCid) }
      else st)
    s

/-- `deque(maxlen=50).append`. -/
def pushRecent (r : List Nat) (i : Nat) : List Nat :=
  let r' := r ++ [i]
  if r'.length > 50 then r'.drop (r'.length - 50) else r'

/-- The coreference-merge branch of `_track_entity`: the scan matched key `k`
whose stored object is at heap index `j`.  The new mention adopts `k`, the
matched object gains the new surface text as an alias, and the store entry for
`k` is re-pointed at the new mention object. -/
def trackMerge (s : ManagerState) (e0 : EntityObj) (k : String) (j : Nat) : ManagerState :=
  let objsA := s.objs.set j (aliasAdd (s.objs.getD j defaultObj) e0.text)
  let e := { e0 with canonicalId := some k }
  -- the in-place alias update keeps the heap size, so the new mention's
  -- index is the current heap size
  updateRelationships
    { s with objs := objsA ++ [e], store := assocSet s.store k s.objs.length,
             recent := pushRecent s.recent s.objs.length }
    s.objs.length

/-- The tentative canonical id of `_track_entity`:
`{label}_{len(session_entities)}`, unless one was pre-assigned. -/
def freshCid (s : ManagerState) (e0 : EntityObj) : String :=
  match e0.canonicalId with
  | some x => x
  | none => e0.label ++ "_" ++ toString s.store.length

/-- The no-match branch of `_track_entity`: keep the tentative id. -/
def trackFresh (s : ManagerState) (e0 : EntityObj) : ManagerState :=
  let newIdx := s.objs.length
  let e := { e0 with canonicalId := some (freshCid s e0) }
  updateRelationships
    { s with objs := s.objs ++ [e], store := assocSet s.store (freshCid s e0) newIdx,
             recent := pushRecent s.recent newIdx }
    newIdx

/-- `_track_entity`. -/
def trackEntity (s : ManagerState) (e0 : EntityObj) : ManagerState :=
  match corefScan s.objs s.store e0.text e0.label with
  | some (k, j) => trackMerge s e0 k j
  | none => trackFresh s e0

/-- Track a turn's entities in extraction order, returning the heap indices of
the new mention objects. -/
def trackAll (s : ManagerState) : List EntityObj → ManagerState × List Nat
  | [] => (s, [])
  | e :: rest =>
    let idx := s.objs.length
    let s1 := trackEntity s e
    let (s2, idxs) := trackAll s1 rest
    (s2, idx :: idxs)

/-! ### Recent-context export (`get_recent_context`) -/

structure EntitySummary where
  text : String
  label : String
  canonicalId : String
  turnId : Nat
deriving DecidableEq, Repr

structure RecentContext where
  turnsCount : Nat
  entities : List EntitySummary
  intents : List (Option String × Rat × Nat)
  temporalReferences : List (EntitySummary × DateTime)
  activeTasks : List EntitySummary
deriving DecidableEq, Repr

/-- Python `window_size or self.context_window_size` (0 and None are falsy)
followed by `turns[-w:] if w > 0 else turns`. -/
def recentTurns (s : ManagerState) (w : Option Int) : List TurnRec :=
  let v : Int :=
    match w with
    | none => s.ctxWindow
    | some v => if v = 0 then s.ctxWindow else v
  if v > 0 then s.turns.drop (s.turns.length - v.toNat) else s.turns

/-- The per-turn bucket routing of `get_recent_context`: TASK entities into
`active_tasks`, temporally resolved entities into `temporal_references`, the
rest into `entities`. -/
def buildCtx (objs : List EntityObj) (ts : List TurnRec) : RecentContext :=
  ts.foldl
    (fun c t =>
      let c1 := { c with intents := c.intents ++ [(t.intent, t.intentConf, t.turnId)] }
      t.entities.foldl
        (fun c2 i =>
          let o := objs.getD i defaultObj
          let summ : EntitySummary := ⟨o.text, o.label, o.canonicalId.getD "", o.turnId⟩
          if o.label = "TASK" then { c2 with activeTasks := c2.activeTasks ++ [summ] }
          else
            match o.resolvedDt with
            | some dt =>
              { c2 with temporalReferences := c2.temporalReferences ++ [(summ, dt)] }
            | none => { c2 with entities := c2.entities ++ [summ] })
        c1)
    { turnsCount := ts.length, entities := [], intents := [],
      temporalReferences := [], activeTasks := [] }

def getRecentContext (s : ManagerState) (w : Option Int) : RecentContext :=
  buildCtx s.objs (recentTurns s w)

/-! ### Reference resolution (`ReferenceResolver`) -/

/-- Prefix test on character lists. -/
def isPrefA : List Char → List Char → Bool
  | [], _ => true
  | _ :: _, [] => false
  | a :: as, b :: bs => a == b && isPrefA as bs

/-- Substring test (`pronoun in text.lower()`). -/
def containsSub (pat : List Char) : List Char → Bool
  | [] => isPrefA pat []
  | c :: rest => isPrefA pat (c :: rest) || containsSub pat rest

/-- `_resolve_pronoun_it`: most recent entity in the `entities` bucket whose
label is TASK, EVENT or ORG. -/
def resolveIt (ctx : RecentContext) : Option String :=
  (ctx.entities.reverse.find? fun e =>
    e.label = "TASK" ∨ e.label = "EVENT" ∨ e.label = "ORG").map (·.text)

/-- `_resolve_pronoun_that`: last active task, else most recent EVENT/TASK
entity. -/
def resolveThat (ctx : RecentContext) : Option String :=
  match ctx.activeTasks.reverse with
  | t :: _ => some t.text
  | [] =>
    (ctx.entities.reverse.find? fun e => e.label = "EVENT" ∨ e.label = "TASK").map (·.text)

/-- `_resolve_pronoun_this`: most recent of the last 3 entities. -/
def resolveThis (ctx : RecentContext) : Option String :=
  match (ctx.entities.drop (ctx.entities.length - 3)).reverse with
  | e :: _ => some e.text
  | [] => none

/-- `_resolve_pronoun_them` / `_resolve_pronoun_they`: join the last two
PERSON entities when at least two exist. -/
def resolveThem (ctx : RecentContext) : Option String :=
  let persons := ctx.entities.filter (·.label = "PERSON")
  if persons.length > 1 then
    match persons.drop (persons.length - 2) with
    | [a, b] => some (a.text ++ ", " ++ b.text)
    | _ => none
  else none

def resolvePronoun (p : String) (ctx : RecentContext) : Option String :=
  if p = "it" then resolveIt ctx
  else if p = "that" then resolveThat ctx
  else if p = "this" then resolveThis ctx
  else if p = "them" then resolveThem ctx
  else if p = "they" then resolveThem ctx
  else none

def pronounKeys : List String := ["it", "that", "this", "them", "they"]

/-- `ReferenceResolver.resolve_references` (the turn's own entity list is
passed by the caller but never read by the resolvers). -/
def resolveReferences (text : String) (_ents : List Nat) (ctx : RecentContext) :
    List (String × String) :=
  pronounKeys.foldl
    (fun acc p =>
      if containsSub p.toList (lowerL text) then
        match resolvePronoun p ctx with
        | some r => acc ++ [(p, r)]
        | none => acc
      else acc)
    []

/-! ### Intent history (`IntentTracker.update_context`) -/

/-- `IntentTracker.update_context`: append when the intent is truthy (neither
`None` nor the empty string), then drop-oldest: if the length exceeds 20,
truncate to the most recent 15. -/
def updateIntentContext (hist : List (String × Rat × DateTime)) (intent : Option String)
    (conf : Rat) (now : DateTime) : List (String × Rat × DateTime) :=
  match intent with
  | none => hist
  | some i =>
    if i = "" then hist
    else
      let h := hist ++ [(i, conf, now)]
      if h.length > 20 then h.drop (h.length - 15) else h

/-! ### Turn processing (`process_turn`) -/

/-- One turn's external inputs: the raw text, its wall-clock timestamp, the
extracted mention list (the spaCy NER spans followed by the domain-regex
custom entities, in extraction order), and the intent classifier's output. -/
structure TurnInput where
  text : String
  ts : DateTime
  mentions : List (String × String)
  intent : Option String
  intentConf : Rat
deriving Repr

/-- `_extract_contextual_entities` minus the external tagging: wrap each
mention, resolving DATE/TIME/EVENT labels through the temporal resolver
(which can raise, aborting the turn before any state mutation). -/
def extractEntities (tid : Nat) (ts : DateTime) :
    List (String × String) → Except Unit (List EntityObj)
  | [] => .ok []
  | (tx, lb) :: rest => do
    let dt ←
      if lb = "DATE" ∨ lb = "TIME" ∨ lb = "EVENT" then
        resolveTemporalExpression tx.toList ts
      else pure none
    let es ← extractEntities tid ts rest
    pure ({ text := tx, label := lb, turnId := tid, ts := ts, canonicalId := none,
            aliases := [], resolvedDt := dt, related := [] } :: es)

/-- Extraction plus tracking — the state reached just before reference
resolution runs. -/
def extractTrack (s : ManagerState) (inp : TurnInput) :
    Except Unit (ManagerState × List Nat) := do
  let es ← extractEntities s.currentTurnId inp.ts inp.mentions
  pure (trackAll s es)

/-- The recent-context view that `process_turn` hands to the Reference
Resolver (`self.get_recent_context()` after extraction/tracking). -/
def contextAtResolve (s : ManagerState) (inp : TurnInput) : Except Unit RecentContext := do
  let (s1, _) ← extractTrack s inp
  pure (getRecentContext s1 none)

/-- `temporal_anchors[text] = dt` for each temporally resolved entity
(`TemporalContext.update_from_turn`). -/
def updateAnchors (anchors : List (String × DateTime)) (objs : List EntityObj)
    (idxs : List Nat) : List (String × DateTime) :=
  idxs.foldl
    (fun a i =>
      let o := objs.getD i defaultObj
      match o.resolvedDt with
      | some dt =>
        if (a.find? fun p => p.1 = o.text).isSome then
          a.map fun p => if p.1 = o.text then (p.1, dt) else p
        else a ++ [(o.text, dt)]
      | none => a)
    anchors

/-- First-occurrence deduplication of the turn's canonical ids
(`active_entities` dict keys). -/
def dedupFirst : List String → List String
  | [] => []
  | x :: rest => x :: (dedupFirst rest).filter (· ≠ x)

/-- `AdvancedNLPContextManager.process_turn`: extraction → tracking →
reference resolution → intent bookkeeping → context update → append to
history.  A `ValueError` escaping the temporal resolver aborts the turn before
any state mutation. -/
def processTurn (s : ManagerState) (inp : TurnInput) :
    Except Unit (ManagerState × TurnRec) := do
  let es ← extractEntities s.currentTurnId inp.ts inp.mentions
  let (s1, idxs) := trackAll s es
  let ctx := getRecentContext s1 none
  let refs := resolveReferences inp.text idxs ctx
  let hist1 := updateIntentContext s1.intentHistory inp.intent inp.intentConf inp.ts
  let anchors1 := updateAnchors s1.temporalAnchors s1.objs idxs
  let activeIds := dedupFirst (idxs.map fun i => (s1.objs.getD i defaultObj).canonicalId.getD "")
  let turn : TurnRec :=
    { turnId := s.currentTurnId, ts := inp.ts, userInput := inp.text, entities := idxs,
      intent := inp.intent, intentConf := inp.intentConf, resolvedRefs := refs,
      contextUpdates := [] }
  let s2 : ManagerState :=
    { s1 with
      intentHistory := hist1, refTime := inp.ts, temporalAnchors := anchors1,
      activeCtx := some ⟨inp.intent, activeIds, turn.turnId, inp.ts⟩,
      turns := s1.turns ++ [turn], currentTurnId := s.currentTurnId + 1 }
  pure (s2, turn)

/-- A sequence of `process_turn` calls; a raising call leaves the state
unchanged (the exception propagates to the caller before any mutation). -/
def runTurns (s : ManagerState) (inputs : List TurnInput) : ManagerState :=
  inputs.foldl
    (fun st inp =>
      match processTurn st inp with
      | .ok (s', _) => s'
      | .error _ => st)
    s

/-- The `session_info` block of `export_conversation_context`. -/
structure SessionInfo where
  totalTurns : Nat
  totalEntities : Nat
  entityClusters : Nat
  startTime : Option DateTime
  endTime : Option DateTime
deriving DecidableEq, Repr

def exportSessionInfo (s : ManagerState) : SessionInfo :=
  { totalTurns := s.turns.length
    totalEntities := s.store.length
    entityClusters := s.entityClusters.length
    startTime := (s.turns.head?).map (·.ts)
    endTime := (s.turns.getLast?).map (·.ts) }

/-! ### Views and invariant predicates used by the theorems -/

/-- The fields of an entity object read by the coreference scan, the context
export and the turn snapshots — everything except `related_entities` (the only
field the relationship update mutates). -/
def objView (o : EntityObj) :
    String × String × Option String × List String × Option DateTime × Nat × DateTime :=
  (o.text, o.label, o.canonicalId, o.aliases, o.resolvedDt, o.turnId, o.ts)

/-- The fields of an entity object that neither alias insertion nor
`related_entities` insertion touches. -/
def coreView (o : EntityObj) :
    String × String × Option String × Option DateTime × Nat × DateTime :=
  (o.text, o.label, o.canonicalId, o.resolvedDt, o.turnId, o.ts)

/-- All manager-state components other than the relationship graph and the
entity heap's `related_entities` fields coincide. -/
def sameCore (s s' : ManagerState) : Prop :=
  s'.store = s.store ∧ s'.recent = s.recent ∧ s'.turns = s.turns ∧
  s'.currentTurnId = s.currentTurnId ∧ s'.entityClusters = s.entityClusters ∧
  s'.intentHistory = s.intentHistory ∧ s'.objs.length = s.objs.length ∧
  (∀ i, objView (s'.objs.getD i defaultObj) = objView (s.objs.getD i defaultObj))

/-- Store indices point into the heap. -/
def storeWF (s : ManagerState) : Prop :=
  ∀ p ∈ s.store, p.2 < s.objs.length

/-- Canonical ids of `recent_entities` members are store keys, and the indices
are in range. -/
def recentWF (s : ManagerState) : Prop :=
  ∀ i ∈ s.recent, i < s.objs.length ∧
    ∃ c, (s.objs.getD i defaultObj).canonicalId = some c ∧ c ∈ s.store.map Prod.fst

/-- The relationship-graph invariant of the claims: symmetry, and every
canonical id appearing in the graph is a session-store key. -/
def graphWF (s : ManagerState) : Prop :=
  (∀ p ∈ s.graph, (p.2, p.1) ∈ s.graph) ∧
  (∀ p ∈ s.graph, p.1 ∈ s.store.map Prod.fst ∧ p.2 ∈ s.store.map Prod.fst)

/-- The combined inductive invariant maintained by `process_turn`. -/
def stateWF (s : ManagerState) : Prop :=
  storeWF s ∧ recentWF s ∧ graphWF s

/-- A single mention object as fed to `_track_entity` (fresh, untracked). -/
def mkMention (tx lb : String) (tid : Nat) (ts : DateTime) : EntityObj :=
  { text := tx, label := lb, turnId := tid, ts := ts, canonicalId := none,
    aliases := [], resolvedDt := none, related := [] }

/-- Rolling intent-history updates folded over a run of turns. -/
def foldIntentUpdates (hist : List (String × Rat × DateTime))
    (upds : List (Option String × Rat × DateTime)) : List (String × Rat × DateTime) :=
  upds.foldl (fun h u => updateIntentContext h u.1 u.2.1 u.2.2) hist

/-! ### Concrete scenario inputs -/

def refT : DateTime := mkDT 2024 1 15 10 0

/-- Turn 1 of the pronoun-resolution scenario.  The mention list holds the
NER spans a tagger produces for this sentence (PERSON "John", the DATE and
TIME expressions) followed by the custom TASK entity that the source's
`(schedule|plan|book)\s+(.+?)(?:\s+(?:for|at|on|by)|\.|$)` pattern captures
from this exact text. -/
def c1turn1 : TurnInput :=
  { text := "Schedule a meeting with John tomorrow at 2pm", ts := refT,
    mentions := [("John", "PERSON"), ("tomorrow", "DATE"), ("2pm", "TIME"),
                 ("a meeting with John tomorrow", "TASK")],
    intent := some "schedule", intentConf := 1 }

/-- Turn 2 of the pronoun-resolution scenario ("Move it to 3pm"; no custom
pattern matches, the tagger yields the TIME span). -/
def c1turn2 : TurnInput :=
  { text := "Move it to 3pm", ts := mkDT 2024 1 15 10 5,
    mentions := [("3pm", "TIME")], intent := none, intentConf := 0 }

/-- The state after the scenario's first turn. -/
def c1state1 : Except Unit ManagerState := (processTurn initState c1turn1).map (·.1)

/-- The recent-context view handed to the Reference Resolver while the second
turn is being processed. -/
def c1ctx2 : Except Unit RecentContext := c1state1.bind fun s => contextAtResolve s c1turn2

/-- The second turn's result record. -/
def c1turnRec2 : Except Unit TurnRec :=
  (c1state1.bind fun s => processTurn s c1turn2).map (·.2)

/-- 25 turns, each classified with a non-null intent. -/
def c3inputs : List TurnInput :=
  List.replicate 25
    { text := "Schedule a meeting", ts := refT, mentions := [],
      intent := some "schedule", intentConf := 1 }

/-- A six-turn session with no entities. -/
def c9inputs : List TurnInput :=
  List.replicate 6 { text := "hello", ts := refT, mentions := [], intent := none, intentConf := 0 }

/-- A turn mentioning two co-occurring entities (for graph witnesses). -/
def c8input : TurnInput :=
  { text := "alice joined acme", ts := refT,
    mentions := [("alice", "PERSON"), ("acme", "ORG")], intent := none, intentConf := 0 }

/-- A single-turn input whose text contains the pronoun "this" and which
carries one extracted entity. -/
def c4input : TurnInput :=
  { text := "keep this plan", ts := refT, mentions := [("acme corp", "ORG")],
    intent := none, intentConf := 0 }

/-- Three mentions across three turns: "John", then "JOHN" (which merges into
the same canonical id and replaces the stored representative), then "John"
again. -/
def c7state : ManagerState :=
  trackEntity
    (trackEntity (trackEntity initState (mkMention "John" "PERSON" 0 refT))
      (mkMention "JOHN" "PERSON" 1 refT))
    (mkMention "John" "PERSON" 2 refT)

/-! ## Theorems -/

/-- `datetime.replace` succeeds when the substituted hour and minute are in
range. -/
theorem replaceTime_ok (t : DateTime) (h m : Nat) (hh : h ≤ 23) (hm : m ≤ 59) :
    replaceTime t h m 0 0 = .ok ⟨t.days, h, m, 0, 0⟩ := by
  unfold replaceTime
  rw [if_pos]
  simp [hh, hm]

/-- C5: for every reference datetime `t`, "today"/"now" resolve to `t`'s date
at midnight, "tomorrow" to that midnight plus one day, "yesterday" to that
midnight minus one day, and "next week" to that midnight plus
`7 - t.weekday()` days; from `2024-01-15T10:00` "tomorrow" is
`2024-01-16T00:00` and "next week" (a Monday) is `2024-01-22T00:00`; the
resolution is a function of the expression and the reference time alone, so
identical inputs give identical outputs. -/
theorem keyword_resolution (t : DateTime) (e e' : List Char) (r r' : DateTime)
    (he : e = e') (hr : r = r') :
    resolveTemporalExpression (toL "today") t = .ok (some ⟨t.days, 0, 0, 0, 0⟩) ∧
    resolveTemporalExpression (toL "now") t = .ok (some ⟨t.days, 0, 0, 0, 0⟩) ∧
    resolveTemporalExpression (toL "tomorrow") t = .ok (some ⟨t.days + 1, 0, 0, 0, 0⟩) ∧
    resolveTemporalExpression (toL "yesterday") t = .ok (some ⟨t.days - 1, 0, 0, 0, 0⟩) ∧
    resolveTemporalExpression (toL "next week") t =
      .ok (some ⟨t.days + (7 - weekday t), 0, 0, 0, 0⟩) ∧
    resolveTemporalExpression (toL "tomorrow") (mkDT 2024 1 15 10 0) =
      .ok (some (mkDT 2024 1 16 0 0)) ∧
    weekday (mkDT 2024 1 15 10 0) = 0 ∧
    resolveTemporalExpression (toL "next week") (mkDT 2024 1 15 10 0) =
      .ok (some (mkDT 2024 1 22 0 0)) ∧
    resolveTemporalExpression e r = resolveTemporalExpression e' r' := by
  subst he hr
  refine ⟨rfl, rfl, rfl, ?_, rfl, rfl, rfl, rfl, rfl⟩
  show Except.ok (some (addDays ⟨t.days, 0, 0, 0, 0⟩ (-1))) = _
  simp only [addDays, Int.sub_eq_add_neg]

/-- Witness for `keyword_resolution` at a concrete reference time. -/
theorem keyword_resolution_witness :
    (toL "x") = (toL "x") ∧ (mkDT 2024 1 15 10 0) = (mkDT 2024 1 15 10 0) ∧
    resolveTemporalExpression (toL "today") (mkDT 2024 1 15 10 0) =
      .ok (some ⟨(mkDT 2024 1 15 10 0).days, 0, 0, 0, 0⟩) :=
  ⟨rfl, rfl,
    (keyword_resolution (mkDT 2024 1 15 10 0) (toL "x") (toL "x")
      (mkDT 2024 1 15 10 0) (mkDT 2024 1 15 10 0) rfl rfl).1⟩

/-- C6: for every reference datetime, "3:30pm" resolves to hour 15 minute 30
on the reference date, "11am" to 11:00, "14:05" to 14:05, "12am" to hour 0,
"12pm" to hour 12; in general the 12-hour normalization maps 12am to 0, keeps
12pm at 12, and adds 12 for pm unless the hour is already 12; the date fields
of the reference are untouched (only the time of day is substituted, with
seconds and microseconds zeroed). -/
theorem clock_parsing (t : DateTime) (h m : Nat)
    (h1 : 1 ≤ h) (h12 : h ≤ 12) (hm : m ≤ 59) :
    resolveTemporalExpression (toL "3:30pm") t = .ok (some ⟨t.days, 15, 30, 0, 0⟩) ∧
    resolveTemporalExpression (toL "11am") t = .ok (some ⟨t.days, 11, 0, 0, 0⟩) ∧
    resolveTemporalExpression (toL "14:05") t = .ok (some ⟨t.days, 14, 5, 0, 0⟩) ∧
    resolveTemporalExpression (toL "12am") t = .ok (some ⟨t.days, 0, 0, 0, 0⟩) ∧
    resolveTemporalExpression (toL "12pm") t = .ok (some ⟨t.days, 12, 0, 0, 0⟩) ∧
    parseTime12h h m true t = .ok ⟨t.days, if h = 12 then 12 else h + 12, m, 0, 0⟩ ∧
    parseTime12h h m false t = .ok ⟨t.days, if h = 12 then 0 else h, m, 0, 0⟩ := by
  refine ⟨rfl, rfl, rfl, rfl, rfl, ?_, ?_⟩
  · unfold parseTime12h
    by_cases hq : h = 12
    · subst hq
      rw [show norm12 12 true = 12 from by simp [norm12]]
      simpa using replaceTime_ok t 12 m (by omega) hm
    · rw [show norm12 h true = h + 12 from by simp [norm12, hq]]
      rw [replaceTime_ok t (h + 12) m (by omega) hm]
      simp [hq]
  · unfold parseTime12h
    by_cases hq : h = 12
    · subst hq
      rw [show norm12 12 false = 0 from by simp [norm12]]
      simpa using replaceTime_ok t 0 m (by omega) hm
    · rw [show norm12 h false = h from by simp [norm12, hq]]
      rw [replaceTime_ok t h m (by omega) hm]
      simp [hq]

/-- Witness for `clock_parsing` at a concrete reference time and clock
values. -/
theorem clock_parsing_witness :
    1 ≤ 3 ∧ 3 ≤ 12 ∧ 7 ≤ 59 ∧
    parseTime12h 3 7 true (mkDT 2024 1 15 10 0) =
      .ok ⟨(mkDT 2024 1 15 10 0).days, if 3 = 12 then 12 else 3 + 12, 7, 0, 0⟩ :=
  ⟨by omega, by omega, by omega,
    (clock_parsing (mkDT 2024 1 15 10 0) 3 7 (by omega) (by omega) (by omega)).2.2.2.2.2.1⟩

/-- C2 counterexample: on input "25:00" the 24-hour clock pattern matches with
hour 25 and `datetime.replace(hour=25)` raises `ValueError`, so the resolver
does raise on this (expression, reference time) pair. -/
theorem temporal_raises_on_25_00 :
    resolveTemporalExpression (toL "25:00") (mkDT 2024 1 15 10 0) = .error () := rfl

/-- C2 amended: the temporal resolver returns an absolute datetime or
unresolved (`none`) — never raising — for every reference time and every
expression whose first-matched clock pattern (if any) carries in-range values
(normalized hour ≤ 23 and minute ≤ 59); expressions with an out-of-range
matched clock time, such as "25:00", instead raise `ValueError` from
`datetime.replace`. -/
theorem temporal_no_raise_in_range (text : List Char) (t : DateTime)
    (hok : clockMatchOk (stripL (text.map lowerChar)) = true) :
    ∃ r, resolveTemporalExpression text t = .ok r := by
  unfold resolveTemporalExpression
  unfold clockMatchOk at hok
  by_cases h1 : stripL (text.map lowerChar) = toL "today" ∨
      stripL (text.map lowerChar) = toL "now"
  · rw [if_pos h1]; exact ⟨_, rfl⟩
  rw [if_neg h1]
  by_cases h2 : stripL (text.map lowerChar) = toL "tomorrow"
  · rw [if_pos h2]; exact ⟨_, rfl⟩
  rw [if_neg h2]
  by_cases h3 : stripL (text.map lowerChar) = toL "yesterday"
  · rw [if_pos h3]; exact ⟨_, rfl⟩
  rw [if_neg h3]
  by_cases h4 : stripL (text.map lowerChar) = toL "next week"
  · rw [if_pos h4]; exact ⟨_, rfl⟩
  rw [if_neg h4]
  by_cases h5 : stripL (text.map lowerChar) = toL "last week"
  · rw [if_pos h5]; exact ⟨_, rfl⟩
  rw [if_neg h5]
  unfold clockResolve
  cases hs12 : searchP m12At (stripL (text.map lowerChar)) with
  | some v =>
    obtain ⟨h, m, p⟩ := v
    simp only [hs12] at hok ⊢
    simp only [Bool.and_eq_true, decide_eq_true_eq] at hok
    unfold parseTime12h
    rw [replaceTime_ok t (norm12 h p) m hok.1 hok.2]
    exact ⟨_, rfl⟩
  | none =>
    simp only [hs12] at hok ⊢
    cases hs24 : searchP m24At (stripL (text.map lowerChar)) with
    | some v =>
      obtain ⟨h, m⟩ := v
      simp only [hs24] at hok ⊢
      simp only [Bool.and_eq_true, decide_eq_true_eq] at hok
      unfold parseTime24h
      rw [replaceTime_ok t h m hok.1 hok.2]
      exact ⟨_, rfl⟩
    | none =>
      simp only [hs24] at hok ⊢
      cases hsh : searchP mh12At (stripL (text.map lowerChar)) with
      | some v =>
        obtain ⟨h, p⟩ := v
        simp only [hsh] at hok ⊢
        simp only [decide_eq_true_eq] at hok
        unfold parseHour12h
        rw [replaceTime_ok t (norm12 h p) 0 hok (by omega)]
        exact ⟨_, rfl⟩
      | none =>
        simp only [hsh]
        exact ⟨none, rfl⟩

/-- Witness for `temporal_no_raise_in_range` on a concrete in-range input. -/
theorem temporal_no_raise_witness :
    clockMatchOk (stripL ((toL "3:30pm").map lowerChar)) = true ∧
    ∃ r, resolveTemporalExpression (toL "3:30pm") (mkDT 2024 1 15 10 0) = .ok r :=
  ⟨by decide, temporal_no_raise_in_range (toL "3:30pm") (mkDT 2024 1 15 10 0) (by decide)⟩

/-! ### Structural lemmas about `_update_entity_relationships` -/

theorem objView_relAdd (o : EntityObj) (c : String) : objView (relAdd o c) = objView o := by
  unfold relAdd
  split <;> rfl

theorem coreView_relAdd (o : EntityObj) (c : String) : coreView (relAdd o c) = coreView o := by
  unfold relAdd
  split <;> rfl

theorem coreView_aliasAdd (o : EntityObj) (t : String) :
    coreView (aliasAdd o t) = coreView o := by
  unfold aliasAdd
  split <;> rfl

theorem sameCore_refl (s : ManagerState) : sameCore s s :=
  ⟨rfl, rfl, rfl, rfl, rfl, rfl, rfl, fun _ => rfl⟩

theorem sameCore_trans {a b c : ManagerState} (h1 : sameCore a b) (h2 : sameCore b c) :
    sameCore a c := by
  obtain ⟨s1, r1, t1, c1, e1, i1, l1, v1⟩ := h1
  obtain ⟨s2, r2, t2, c2, e2, i2, l2, v2⟩ := h2
  exact ⟨s2.trans s1, r2.trans r1, t2.trans t1, c2.trans c1, e2.trans e1, i2.trans i1,
    l2.trans l1, fun i => (v2 i).trans (v1 i)⟩

theorem foldl_sameCore {α : Type} (f : ManagerState → α → ManagerState)
    (hf : ∀ st a, sameCore st (f st a)) :
    ∀ (l : List α) (st : ManagerState), sameCore st (l.foldl f st) := by
  intro l
  induction l with
  | nil => intro st; exact sameCore_refl st
  | cons a rest ih =>
    intro st
    rw [List.foldl_cons]
    exact sameCore_trans (hf st a) (ih (f st a))

theorem view_getD_set {β : Type} (v : EntityObj → β) (l : List EntityObj) (j i : Nat)
    (g : EntityObj → EntityObj) (hg : ∀ o, v (g o) = v o) :
    v ((l.set j (g (l.getD j defaultObj))).getD i defaultObj) =
      v (l.getD i defaultObj) := by
  induction l generalizing i j with
  | nil => simp
  | cons a rest ih =>
    cases j with
    | zero =>
      cases i with
      | zero => simpa using hg a
      | succ i' => simp
    | succ j' =>
      cases i with
      | zero => simp
      | succ i' => simpa using ih j' i'

/-- The relationship update touches only the graph and the
`related_entities` fields of the heap. -/
theorem updRel_sameCore (s : ManagerState) (idx : Nat) :
    sameCore s (updateRelationships s idx) := by
  unfold updateRelationships
  apply foldl_sameCore
  intro st a
  dsimp only
  split
  · exact ⟨rfl, rfl, rfl, rfl, rfl, rfl, by simp, fun i =>
      view_getD_set objView st.objs idx i (fun o => relAdd o _) (fun o => objView_relAdd o _)⟩
  · exact sameCore_refl st

/-! ### Tracking preserves the fields unrelated to entities -/

theorem trackEntity_frame (s : ManagerState) (e : EntityObj) :
    (trackEntity s e).turns = s.turns ∧
    (trackEntity s e).currentTurnId = s.currentTurnId ∧
    (trackEntity s e).entityClusters = s.entityClusters ∧
    (trackEntity s e).intentHistory = s.intentHistory := by
  unfold trackEntity
  split
  · unfold trackMerge
    dsimp only
    exact ⟨((updRel_sameCore _ _).2.2.1).trans rfl,
      ((updRel_sameCore _ _).2.2.2.1).trans rfl,
      ((updRel_sameCore _ _).2.2.2.2.1).trans rfl,
      ((updRel_sameCore _ _).2.2.2.2.2.1).trans rfl⟩
  · unfold trackFresh
    dsimp only
    exact ⟨((updRel_sameCore _ _).2.2.1).trans rfl,
      ((updRel_sameCore _ _).2.2.2.1).trans rfl,
      ((updRel_sameCore _ _).2.2.2.2.1).trans rfl,
      ((updRel_sameCore _ _).2.2.2.2.2.1).trans rfl⟩

theorem trackAll_frame (es : List EntityObj) (s : ManagerState) :
    (trackAll s es).1.turns = s.turns ∧
    (trackAll s es).1.currentTurnId = s.currentTurnId ∧
    (trackAll s es).1.entityClusters = s.entityClusters ∧
    (trackAll s es).1.intentHistory = s.intentHistory := by
  induction es generalizing s with
  | nil => exact ⟨rfl, rfl, rfl, rfl⟩
  | cons e rest ih =>
    obtain ⟨h1, h2, h3, h4⟩ := trackEntity_frame s e
    obtain ⟨g1, g2, g3, g4⟩ := ih (trackEntity s e)
    exact ⟨g1.trans h1, g2.trans h2, g3.trans h3, g4.trans h4⟩

/-- `process_turn` never writes `entity_clusters`. -/
theorem processTurn_clusters {s : ManagerState} {inp : TurnInput} {s' : ManagerState}
    {t : TurnRec} (h : processTurn s inp = .ok (s', t)) :
    s'.entityClusters = s.entityClusters := by
  unfold processTurn at h
  cases hex : extractEntities s.currentTurnId inp.ts inp.mentions with
  | error e => rw [hex] at h; exact absurd h (by simp [Bind.bind, Except.bind])
  | ok es =>
    rw [hex] at h
    simp only [Bind.bind, Except.bind, pure, Except.pure, Except.ok.injEq,
      Prod.mk.injEq] at h
    have := (trackAll_frame es s).2.2.1
    rw [← h.1]
    exact this

/-- C10: `entity_clusters` is never written, so after any sequence of
processed turns the session export reports an `entity_clusters` count of 0. -/
theorem entity_clusters_always_zero (inputs : List TurnInput) :
    (runTurns initState inputs).entityClusters = [] ∧
    (exportSessionInfo (runTurns initState inputs)).entityClusters = 0 := by
  have key : ∀ (l : List TurnInput) (s : ManagerState),
      (runTurns s l).entityClusters = s.entityClusters := by
    intro l
    induction l with
    | nil => intro s; rfl
    | cons inp rest ih =>
      intro s
      unfold runTurns
      rw [List.foldl_cons]
      cases hp : processTurn s inp with
      | ok p =>
        have h1 : p.1.entityClusters = s.entityClusters :=
          processTurn_clusters (by rw [hp])
        simpa [runTurns, hp] using (ih p.1).trans h1
      | error e => simpa [runTurns, hp] using ih s
  have h0 := key inputs initState
  refine ⟨h0, ?_⟩
  show (runTurns initState inputs).entityClusters.length = 0
  rw [h0]
  rfl

/-! ### Intent history -/

theorem updateIntentContext_le (hist : List (String × Rat × DateTime))
    (intent : Option String) (conf : Rat) (now : DateTime)
    (hle : hist.length ≤ 20) :
    (updateIntentContext hist intent conf now).length ≤ 20 := by
  unfold updateIntentContext
  cases intent with
  | none => exact hle
  | some i =>
    dsimp only
    split
    · exact hle
    · split
      · simp only [List.length_drop]
        omega
      · rename_i hgt
        simp only [not_lt] at hgt
        simpa using hgt

set_option maxRecDepth 100000 in
/-- C3 counterexample: after 25 turns with non-null intents the retained
intent history has length 19, which is not at most 15. -/
theorem intent_history_25_turns_length :
    (runTurns initState c3inputs).intentHistory.length = 19 ∧
    ¬ (runTurns initState c3inputs).intentHistory.length ≤ 15 := by
  have h19 : (runTurns initState c3inputs).intentHistory.length = 19 := by rfl
  exact ⟨h19, by omega⟩

set_option maxRecDepth 100000 in
/-- C3 amended: the history is capped drop-oldest — an append that pushes the
length above 20 truncates to the most recent 15 — so after any sequence of
updates starting from a history of length at most 20 the length stays at most
20 (never unbounded), and after the 25-turn run of the claim the retained
length is exactly 19, not at most 15. -/
theorem intent_history_bounded (upds : List (Option String × Rat × DateTime))
    (hist : List (String × Rat × DateTime)) (h : hist.length ≤ 20) :
    (foldIntentUpdates hist upds).length ≤ 20 ∧
    (runTurns initState c3inputs).intentHistory.length = 19 := by
  refine ⟨?_, by rfl⟩
  unfold foldIntentUpdates
  induction upds generalizing hist with
  | nil => exact h
  | cons u rest ih =>
    rw [List.foldl_cons]
    exact ih _ (updateIntentContext_le hist u.1 u.2.1 u.2.2 h)

/-- Witness for `intent_history_bounded` on a concrete update list. -/
theorem intent_history_bounded_witness :
    ([(("schedule", (1 : Rat), refT))] : List (String × Rat × DateTime)).length ≤ 20 ∧
    (foldIntentUpdates [("schedule", (1 : Rat), refT)]
        [(some "planning", (1 : Rat), refT)]).length ≤ 20 :=
  ⟨by simp,
    (intent_history_bounded [(some "planning", (1 : Rat), refT)]
      [("schedule", (1 : Rat), refT)] (by simp)).1⟩

/-! ### Recent-context window semantics -/

theorem recentTurns_length_le (s : ManagerState) (w : Option Int) :
    (recentTurns s w).length ≤ s.turns.length := by
  have key : ∀ (l : List TurnRec) (v : Int),
      (if v > 0 then l.drop (l.length - v.toNat) else l).length ≤ l.length := by
    intro l v
    split
    · simp
    · exact le_rfl
  unfold recentTurns
  cases w with
  | none => exact key s.turns s.ctxWindow
  | some v => exact key s.turns (if v = 0 then (s.ctxWindow : Int) else v)

theorem buildCtx_turnsCount (objs : List EntityObj) (ts : List TurnRec) :
    (buildCtx objs ts).turnsCount = ts.length := by
  unfold buildCtx
  have inner : ∀ (es : List Nat) (c : RecentContext),
      (es.foldl (fun c2 i =>
        let o := objs.getD i defaultObj
        let summ : EntitySummary := ⟨o.text, o.label, o.canonicalId.getD "", o.turnId⟩
        if o.label = "TASK" then { c2 with activeTasks := c2.activeTasks ++ [summ] }
        else
          match o.resolvedDt with
          | some dt =>
            { c2 with temporalReferences := c2.temporalReferences ++ [(summ, dt)] }
          | none => { c2 with entities := c2.entities ++ [summ] }) c).turnsCount =
        c.turnsCount := by
    intro es
    induction es with
    | nil => intro c; rfl
    | cons i rest ih =>
      intro c
      rw [List.foldl_cons]
      rw [ih]
      dsimp only
      split
      · rfl
      · split <;> rfl
  have outer : ∀ (l : List TurnRec) (c : RecentContext),
      (l.foldl (fun c t =>
        let c1 := { c with intents := c.intents ++ [(t.intent, t.intentConf, t.turnId)] }
        t.entities.foldl (fun c2 i =>
          let o := objs.getD i defaultObj
          let summ : EntitySummary := ⟨o.text, o.label, o.canonicalId.getD "", o.turnId⟩
          if o.label = "TASK" then { c2 with activeTasks := c2.activeTasks ++ [summ] }
          else
            match o.resolvedDt with
            | some dt =>
              { c2 with temporalReferences := c2.temporalReferences ++ [(summ, dt)] }
            | none => { c2 with entities := c2.entities ++ [summ] }) c1) c).turnsCount =
        c.turnsCount := by
    intro l
    induction l with
    | nil => intro c; rfl
    | cons t rest ih =>
      intro c
      rw [List.foldl_cons, ih, inner]
  rw [outer]

set_option maxRecDepth 100000 in
/-- C9 counterexample: in a six-turn session, `get_recent_context(0)` covers
only 5 turns — not the whole history. -/
theorem window_zero_counterexample :
    (runTurns initState c9inputs).turns.length = 6 ∧
    (getRecentContext (runTurns initState c9inputs) (some 0)).turnsCount = 5 ∧
    (getRecentContext (runTurns initState c9inputs) (some 0)).turnsCount ≠
      (runTurns initState c9inputs).turns.length := by
  have h6 : (runTurns initState c9inputs).turns.length = 6 := by rfl
  have h5 : (getRecentContext (runTurns initState c9inputs) (some 0)).turnsCount = 5 := by rfl
  exact ⟨h6, h5, by omega⟩

/-- C9 amended: a `window_size` of 0 is falsy in `window_size or
self.context_window_size`, so it falls back to the default window (5) and
restricts the view to the last 5 turns, exactly as passing `None` does; only a
negative `window_size` yields the entire turn history. -/
theorem window_zero_defaults (s : ManagerState) (v : Int) (hv : v < 0) :
    recentTurns s (some 0) = recentTurns s none ∧
    getRecentContext s (some 0) = getRecentContext s none ∧
    recentTurns s (some v) = s.turns := by
  refine ⟨rfl, rfl, ?_⟩
  unfold recentTurns
  dsimp only
  rw [if_neg (by omega : ¬ (v = 0))]
  rw [if_neg (by omega : ¬ (v > 0))]

/-- Witness for `window_zero_defaults` at a concrete negative window. -/
theorem window_zero_defaults_witness :
    (-1 : Int) < 0 ∧ recentTurns initState (some (-1)) = initState.turns :=
  ⟨by omega, (window_zero_defaults initState (-1) (by omega)).2.2⟩

/-! ### The pronoun-resolution scenario -/

set_option maxRecDepth 100000 in
/-- C1: in the two-turn scenario, turn 1 extracts the PERSON/DATE/TIME spans
and the custom TASK entity, but `get_recent_context` routes the TASK entity
into `active_tasks` (and the temporally resolved entities into
`temporal_references`), so the `entities` bucket that `_resolve_pronoun_it`
scans holds only the PERSON — and turn 2's `resolved_references` is empty: no
entry for "it" at all, contradicting the claimed resolution to the task/event
entity of turn 1. -/
theorem pronoun_it_unresolved_in_scenario :
    c1state1.map (fun s => s.objs.map fun o => (o.text, o.label)) =
      .ok [("John", "PERSON"), ("tomorrow", "DATE"), ("2pm", "TIME"),
           ("a meeting with John tomorrow", "TASK")] ∧
    c1ctx2.map (fun c =>
        (c.activeTasks.map (·.text), c.entities.map fun e => (e.text, e.label))) =
      .ok (["a meeting with John tomorrow"], [("John", "PERSON")]) ∧
    c1turnRec2.map (·.resolvedRefs) = .ok [] :=
  ⟨by rfl, by rfl, by rfl⟩

/-! ### The view handed to the Reference Resolver -/

set_option maxRecDepth 100000 in
/-- C4 counterexample: processing a first turn whose text contains "this" and
which extracts one entity, the recent-context view handed to the Reference
Resolver is empty — zero turns, no entities — even though the turn's own
extraction produced an entity; consequently nothing is resolved.  The current
turn's entities are not in the view. -/
theorem resolver_view_excludes_current_turn :
    (processTurn initState c4input).map (fun p => p.2.entities.length) = .ok 1 ∧
    contextAtResolve initState c4input = .ok ⟨0, [], [], [], []⟩ ∧
    (processTurn initState c4input).map (fun p => p.2.resolvedRefs) = .ok [] :=
  ⟨by rfl, by rfl, by rfl⟩

/-- C4 amended: reference resolution runs after extraction, but the
recent-context view handed to the Reference Resolver is computed from the turn
history as it stands before the current turn is appended: it is the context of
a state with exactly the prior turn list, so it covers at most the prior turns
and never includes the current turn's own entities. -/
theorem resolver_view_from_prior_turns (s : ManagerState) (inp : TurnInput)
    (ctx : RecentContext) (h : contextAtResolve s inp = .ok ctx) :
    ctx.turnsCount ≤ s.turns.length ∧
    ∃ s', s'.turns = s.turns ∧ ctx = getRecentContext s' none := by
  unfold contextAtResolve extractTrack at h
  cases hex : extractEntities s.currentTurnId inp.ts inp.mentions with
  | error e =>
    rw [hex] at h
    exact absurd h (by simp [Bind.bind, Except.bind])
  | ok es =>
    rw [hex] at h
    simp only [Bind.bind, Except.bind, pure, Except.pure, Except.ok.injEq] at h
    refine ⟨?_, (trackAll s es).1, (trackAll_frame es s).1, h.symm⟩
    have hlen : (recentTurns (trackAll s es).1 none).length ≤
        (trackAll s es).1.turns.length := recentTurns_length_le _ _
    calc ctx.turnsCount
        = (recentTurns (trackAll s es).1 none).length := by
          rw [← h]; exact buildCtx_turnsCount _ _
      _ ≤ (trackAll s es).1.turns.length := hlen
      _ = s.turns.length := by rw [(trackAll_frame es s).1]

/-- Witness for `resolver_view_from_prior_turns` on the concrete first-turn
input. -/
theorem resolver_view_witness :
    contextAtResolve initState c4input = .ok ⟨0, [], [], [], []⟩ ∧
    ((⟨0, [], [], [], []⟩ : RecentContext).turnsCount ≤ initState.turns.length ∧
      ∃ s', s'.turns = initState.turns ∧
        (⟨0, [], [], [], []⟩ : RecentContext) = getRecentContext s' none) :=
  ⟨by rfl, resolver_view_from_prior_turns initState c4input ⟨0, [], [], [], []⟩ (by rfl)⟩

/-! ### List access lemmas -/

theorem getD_append_lt {α : Type} (l l' : List α) (d : α) (i : Nat) (h : i < l.length) :
    (l ++ l').getD i d = l.getD i d := by
  induction l generalizing i with
  | nil => simp at h
  | cons a r ih =>
    cases i with
    | zero => rfl
    | succ i' => simpa using ih i' (by simp only [List.length_cons] at h; omega)

theorem getD_append_self {α : Type} (l : List α) (e : α) (d : α) :
    (l ++ [e]).getD l.length d = e := by
  induction l with
  | nil => rfl
  | cons a r ih =>
    simp only [List.cons_append, List.length_cons, List.getD_cons_succ]
    exact ih

theorem getD_append_at {α : Type} (l : List α) (e d : α) (n : Nat)
    (hn : l.length = n) : (l ++ [e]).getD n d = e := by
  subst hn
  exact getD_append_self l e d

theorem getD_set_self {α : Type} (l : List α) (i : Nat) (a d : α) (h : i < l.length) :
    (l.set i a).getD i d = a := by
  induction l generalizing i with
  | nil => simp at h
  | cons b r ih =>
    cases i with
    | zero => rfl
    | succ i' => simpa using ih i' (by simp only [List.length_cons] at h; omega)

/-! ### Field-extraction and congruence lemmas for entity views -/

theorem objView_fields {o o' : EntityObj} (h : objView o = objView o') :
    o.text = o'.text ∧ o.label = o'.label ∧ o.canonicalId = o'.canonicalId ∧
    o.aliases = o'.aliases := by
  simp only [objView, Prod.mk.injEq] at h
  exact ⟨h.1, h.2.1, h.2.2.1, h.2.2.2.1⟩

theorem coreView_of_objView {o o' : EntityObj} (h : objView o = objView o') :
    coreView o = coreView o' := by
  simp only [objView, Prod.mk.injEq] at h
  simp only [coreView, Prod.mk.injEq]
  exact ⟨h.1, h.2.1, h.2.2.1, h.2.2.2.2.1, h.2.2.2.2.2.1, h.2.2.2.2.2.2⟩

theorem aliasAdd_cid (o : EntityObj) (t : String) :
    (aliasAdd o t).canonicalId = o.canonicalId := by
  unfold aliasAdd
  split <;> rfl

theorem mem_aliasAdd (o : EntityObj) (t : String) : t ∈ (aliasAdd o t).aliases := by
  by_cases h : t ∈ o.aliases
  · simp [aliasAdd, h]
  · simp [aliasAdd, h]

theorem aliasAdd_aliases (o : EntityObj) (t : String) :
    (aliasAdd o t).aliases = o.aliases ∨ (aliasAdd o t).aliases = o.aliases ++ [t] := by
  unfold aliasAdd
  split
  · exact Or.inl rfl
  · exact Or.inr rfl

theorem matchEnt_congr_core {o o' : EntityObj} (h : coreView o = coreView o')
    (tx lb : String) : matchEnt o tx lb = matchEnt o' tx lb := by
  simp only [coreView, Prod.mk.injEq] at h
  unfold matchEnt
  rw [h.1, h.2.1]

theorem matchEnt_self (e : EntityObj) (tx lb : String) (h1 : e.text = tx)
    (h2 : e.label = lb) : matchEnt e tx lb = true := by
  unfold matchEnt
  rw [h1, h2]
  simp

/-! ### Coreference-scan lemmas -/

theorem corefScan_congr (objs objs2 : List EntityObj) (tx lb : String)
    (h : ∀ i, matchEnt (objs2.getD i defaultObj) tx lb =
      matchEnt (objs.getD i defaultObj) tx lb) :
    ∀ store : List (String × Nat), corefScan objs2 store tx lb = corefScan objs store tx lb := by
  intro store
  induction store with
  | nil => rfl
  | cons p rest ih =>
    obtain ⟨k, j⟩ := p
    simp only [corefScan]
    rw [h j, ih]

/-- After a tracked mention is stored (possibly replacing the representative
it merged with), a scan for the same text and label finds the stored mention
object under its canonical key: the prefix of the store that failed before
still fails (its entries' text/label are untouched), and the key's slot now
holds the new self-matching mention. -/
theorem corefScan_assocSet_self (objs objs2 : List EntityObj) (e' : EntityObj)
    (tx lb k : String) (n : Nat) (hself : matchEnt e' tx lb = true)
    (hn : objs2.length = n) :
    ∀ store : List (String × Nat),
      (∀ p ∈ store, p.2 < objs2.length ∧
        matchEnt (objs2.getD p.2 defaultObj) tx lb =
          matchEnt (objs.getD p.2 defaultObj) tx lb) →
      (corefScan objs store tx lb = none ∨
        ∃ j, corefScan objs store tx lb = some (k, j)) →
      corefScan (objs2 ++ [e']) (assocSet store k n) tx lb = some (k, n) := by
  subst hn
  intro store
  induction store with
  | nil =>
    intro _ _
    show corefScan (objs2 ++ [e']) [(k, objs2.length)] tx lb = _
    simp only [corefScan]
    rw [getD_append_self, if_pos hself]
  | cons p rest ih =>
    obtain ⟨k', j'⟩ := p
    intro hp hdisj
    have hj := hp (k', j') (by simp)
    by_cases hm : matchEnt (objs.getD j' defaultObj) tx lb = true
    · have hk : k' = k := by
        rcases hdisj with hnone | ⟨j0, hsome⟩
        · exfalso
          simp only [corefScan, if_pos hm] at hnone
          exact Option.noConfusion hnone
        · simp only [corefScan, if_pos hm, Option.some.injEq, Prod.mk.injEq] at hsome
          exact hsome.1
      subst hk
      show corefScan (objs2 ++ [e']) (assocSet ((k', j') :: rest) k' objs2.length) tx lb = _
      simp only [assocSet, if_pos rfl]
      simp only [corefScan]
      rw [getD_append_self, if_pos hself]
    · have hdisj' : corefScan objs rest tx lb = none ∨
          ∃ j, corefScan objs rest tx lb = some (k, j) := by
        rcases hdisj with hnone | ⟨j0, hsome⟩
        · left
          simpa only [corefScan, if_neg hm] using hnone
        · right
          exact ⟨j0, by simpa only [corefScan, if_neg hm] using hsome⟩
      by_cases hkk : k' = k
      · subst hkk
        show corefScan (objs2 ++ [e']) (assocSet ((k', j') :: rest) k' objs2.length) tx lb = _
        simp only [assocSet, if_pos rfl]
        simp only [corefScan]
        rw [getD_append_self, if_pos hself]
      · show corefScan (objs2 ++ [e']) (assocSet ((k', j') :: rest) k objs2.length) tx lb = _
        simp only [assocSet, if_neg hkk]
        simp only [corefScan]
        rw [getD_append_lt _ _ _ _ hj.1, hj.2, if_neg hm]
        exact ih (fun p hp' => hp p (List.mem_cons_of_mem _ hp')) hdisj'

/-- Characterization of `_track_entity` on a session whose store indices are
in range: the new mention lands at heap index `len(objs)` carrying some
canonical id `cid`, and an immediately following scan for the same text and
label finds exactly `(cid, len(objs))`. -/
theorem trackEntity_spec (s : ManagerState) (e : EntityObj) (hwf : storeWF s) :
    ∃ cid : String,
      (trackEntity s e).objs.length = s.objs.length + 1 ∧
      objView ((trackEntity s e).objs.getD s.objs.length defaultObj) =
        objView { e with canonicalId := some cid } ∧
      corefScan (trackEntity s e).objs (trackEntity s e).store e.text e.label =
        some (cid, s.objs.length) := by
  unfold trackEntity
  cases h0 : corefScan s.objs s.store e.text e.label with
  | none =>
    refine ⟨freshCid s e, ?_, ?_, ?_⟩
    · unfold trackFresh
      dsimp only
      rw [(updRel_sameCore _ _).2.2.2.2.2.2.1]
      simp
    · unfold trackFresh
      dsimp only
      rw [(updRel_sameCore _ _).2.2.2.2.2.2.2 s.objs.length]
      exact congrArg objView (getD_append_self s.objs _ defaultObj)
    · unfold trackFresh
      dsimp only
      rw [(updRel_sameCore _ _).1]
      rw [corefScan_congr _ _ e.text e.label
        (fun i => matchEnt_congr_core
          (coreView_of_objView ((updRel_sameCore _ _).2.2.2.2.2.2.2 i)) _ _) _]
      exact corefScan_assocSet_self s.objs s.objs
        { e with canonicalId := some (freshCid s e) } e.text e.label (freshCid s e)
        s.objs.length (matchEnt_self _ _ _ rfl rfl) rfl s.store
        (fun p hp => ⟨hwf p hp, rfl⟩) (Or.inl h0)
  | some v =>
    obtain ⟨k, j⟩ := v
    refine ⟨k, ?_, ?_, ?_⟩
    · unfold trackMerge
      dsimp only
      rw [(updRel_sameCore _ _).2.2.2.2.2.2.1]
      simp
    · unfold trackMerge
      dsimp only
      rw [(updRel_sameCore _ _).2.2.2.2.2.2.2 s.objs.length]
      exact congrArg objView
        (getD_append_at _ _ defaultObj s.objs.length (List.length_set _ _ _))
    · unfold trackMerge
      dsimp only
      rw [(updRel_sameCore _ _).1]
      rw [corefScan_congr _ _ e.text e.label
        (fun i => matchEnt_congr_core
          (coreView_of_objView ((updRel_sameCore _ _).2.2.2.2.2.2.2 i)) _ _) _]
      exact corefScan_assocSet_self s.objs
        (s.objs.set j (aliasAdd (s.objs.getD j defaultObj) e.text))
        { e with canonicalId := some k } e.text e.label k s.objs.length
        (matchEnt_self _ _ _ rfl rfl) (List.length_set _ _ _) s.store
        (fun p hp => ⟨by simpa [List.length_set] using hwf p hp,
          matchEnt_congr_core
            (view_getD_set coreView s.objs j p.2 (fun o => aliasAdd o e.text)
              (fun o => coreView_aliasAdd o _)) _ _⟩)
        (Or.inr ⟨j, h0⟩)

/-- C7 amended: when an entity with identical surface text and identical label
is fed to entity tracking twice, with no other entity tracked in between, the
second mention is assigned the same canonical id as the first and the second
mention's surface text is added to the first mention's alias set.  (With
intervening mentions the alias is instead added to the current stored
representative of the matched canonical id — see the counterexample.) -/
theorem updRel_getD_cid (s : ManagerState) (idx i : Nat) :
    ((updateRelationships s idx).objs.getD i defaultObj).canonicalId =
      (s.objs.getD i defaultObj).canonicalId ∧
    ((updateRelationships s idx).objs.getD i defaultObj).aliases =
      (s.objs.getD i defaultObj).aliases :=
  ⟨(objView_fields ((updRel_sameCore s idx).2.2.2.2.2.2.2 i)).2.2.1,
   (objView_fields ((updRel_sameCore s idx).2.2.2.2.2.2.2 i)).2.2.2⟩

theorem coref_idempotent_adjacent (s : ManagerState) (tx lb : String)
    (t1 t2 : Nat) (ts1 ts2 : DateTime) (hwf : storeWF s) :
    ((trackEntity (trackEntity s (mkMention tx lb t1 ts1))
        (mkMention tx lb t2 ts2)).objs.getD (s.objs.length + 1) defaultObj).canonicalId =
      ((trackEntity (trackEntity s (mkMention tx lb t1 ts1))
        (mkMention tx lb t2 ts2)).objs.getD s.objs.length defaultObj).canonicalId ∧
    tx ∈ ((trackEntity (trackEntity s (mkMention tx lb t1 ts1))
        (mkMention tx lb t2 ts2)).objs.getD s.objs.length defaultObj).aliases := by
  obtain ⟨cid, hlen, hview, hscan⟩ := trackEntity_spec s (mkMention tx lb t1 ts1) hwf
  set s1 := trackEntity s (mkMention tx lb t1 ts1) with hs1
  have hTrack2 : trackEntity s1 (mkMention tx lb t2 ts2) =
      trackMerge s1 (mkMention tx lb t2 ts2) cid s.objs.length := by
    unfold trackEntity
    rw [show corefScan s1.objs s1.store (mkMention tx lb t2 ts2).text
        (mkMention tx lb t2 ts2).label = some (cid, s.objs.length) from hscan]
  rw [hTrack2]
  unfold trackMerge
  dsimp only
  have hAlen : (s1.objs.set s.objs.length
      (aliasAdd (s1.objs.getD s.objs.length defaultObj)
        (mkMention tx lb t2 ts2).text)).length = s.objs.length + 1 := by
    rw [List.length_set, hlen]
  have hstep : ((s1.objs.set s.objs.length
        (aliasAdd (s1.objs.getD s.objs.length defaultObj)
          (mkMention tx lb t2 ts2).text) ++
      [{ mkMention tx lb t2 ts2 with canonicalId := some cid }]).getD
        s.objs.length defaultObj) =
      aliasAdd (s1.objs.getD s.objs.length defaultObj) (mkMention tx lb t2 ts2).text := by
    rw [getD_append_lt _ _ _ _ (by rw [hAlen]; omega)]
    exact getD_set_self _ _ _ _ (by rw [hlen]; omega)
  constructor
  · rw [(updRel_getD_cid _ _ _).1, (updRel_getD_cid _ _ _).1]
    dsimp only
    rw [getD_append_at _ _ defaultObj (s.objs.length + 1) hAlen]
    rw [hstep, aliasAdd_cid, (objView_fields hview).2.2.1]
  · rw [(updRel_getD_cid _ _ _).2]
    dsimp only
    rw [hstep]
    exact mem_aliasAdd _ _

/-- Witness for `coref_idempotent_adjacent`: the same mention fed twice into a
fresh session. -/
theorem coref_idempotent_witness :
    storeWF initState ∧
    (((trackEntity (trackEntity initState (mkMention "John" "PERSON" 0 refT))
        (mkMention "John" "PERSON" 1 refT)).objs.getD
          (initState.objs.length + 1) defaultObj).canonicalId =
      ((trackEntity (trackEntity initState (mkMention "John" "PERSON" 0 refT))
        (mkMention "John" "PERSON" 1 refT)).objs.getD
          initState.objs.length defaultObj).canonicalId ∧
      "John" ∈ ((trackEntity (trackEntity initState (mkMention "John" "PERSON" 0 refT))
        (mkMention "John" "PERSON" 1 refT)).objs.getD
          initState.objs.length defaultObj).aliases) := by
  have h : storeWF initState := by
    intro p hp
    simp [initState] at hp
  exact ⟨h, coref_idempotent_adjacent initState "John" "PERSON" 0 1 refT refT h⟩

set_option maxRecDepth 100000 in
/-- C7 counterexample: "John" (turn 0), then "JOHN" (turn 1, merges into
PERSON_0 and replaces the stored representative), then "John" again (turn 2).
The third mention reuses the same canonical id, but its surface text "John"
is added to the alias set of the second mention's object, not the first's:
the first mention's alias set stays `["JOHN"]`, so the claimed conjunction
fails. -/
theorem coref_alias_counterexample :
    (c7state.objs.getD 2 defaultObj).canonicalId =
      (c7state.objs.getD 0 defaultObj).canonicalId ∧
    (c7state.objs.getD 0 defaultObj).aliases = ["JOHN"] ∧
    ¬ "John" ∈ (c7state.objs.getD 0 defaultObj).aliases := by
  refine ⟨by rfl, by rfl, by decide⟩

/-! ### Relationship-graph invariant -/

theorem coreView_fields {o o' : EntityObj} (h : coreView o = coreView o') :
    o.text = o'.text ∧ o.label = o'.label ∧ o.canonicalId = o'.canonicalId := by
  simp only [coreView, Prod.mk.injEq] at h
  exact ⟨h.1, h.2.1, h.2.2.1⟩

theorem addEdge_mem {g : List (String × String)} {a b : String} {p : String × String} :
    p ∈ addEdge g a b ↔ p ∈ g ∨ p = (a, b) := by
  unfold addEdge
  split
  · constructor
    · exact Or.inl
    · rintro (hp | rfl)
      · exact hp
      · assumption
  · simp

theorem assocSet_mem {store : List (String × Nat)} {k : String} {v : Nat}
    {p : String × Nat} (h : p ∈ assocSet store k v) : p ∈ store ∨ p = (k, v) := by
  induction store with
  | nil =>
    simp only [assocSet, List.mem_singleton] at h
    exact Or.inr h
  | cons q rest ih =>
    obtain ⟨k', v'⟩ := q
    unfold assocSet at h
    by_cases hk : k' = k
    · rw [if_pos hk] at h
      rcases List.mem_cons.mp h with h | h
      · exact Or.inr h
      · exact Or.inl (List.mem_cons_of_mem _ h)
    · rw [if_neg hk] at h
      rcases List.mem_cons.mp h with h | h
      · exact Or.inl (by rw [h]; exact List.mem_cons_self _ _)
      · rcases ih h with h' | h'
        · exact Or.inl (List.mem_cons_of_mem _ h')
        · exact Or.inr h'

theorem keys_assocSet_mono {store : List (String × Nat)} {k k' : String} {v : Nat}
    (h : k' ∈ store.map Prod.fst) : k' ∈ (assocSet store k v).map Prod.fst := by
  induction store with
  | nil => simp at h
  | cons q rest ih =>
    obtain ⟨k0, v0⟩ := q
    unfold assocSet
    by_cases hk : k0 = k
    · rw [if_pos hk]
      simp only [List.map_cons, List.mem_cons] at h ⊢
      rcases h with h | h
      · exact Or.inl (h.trans hk)
      · exact Or.inr h
    · rw [if_neg hk]
      simp only [List.map_cons, List.mem_cons] at h ⊢
      rcases h with h | h
      · exact Or.inl h
      · exact Or.inr (ih h)

theorem key_mem_assocSet (store : List (String × Nat)) (k : String) (v : Nat) :
    k ∈ (assocSet store k v).map Prod.fst := by
  induction store with
  | nil => simp [assocSet]
  | cons q rest ih =>
    obtain ⟨k0, v0⟩ := q
    unfold assocSet
    by_cases hk : k0 = k
    · rw [if_pos hk]; simp
    · rw [if_neg hk]
      simp only [List.map_cons, List.mem_cons]
      exact Or.inr ih

theorem pushRecent_mem {r : List Nat} {n i : Nat} (h : i ∈ pushRecent r n) :
    i ∈ r ∨ i = n := by
  unfold pushRecent at h
  dsimp only at h
  split at h
  · have h2 := List.mem_of_mem_drop h
    simpa using h2
  · simpa using h

theorem foldl_pres {α : Type} (f : ManagerState → α → ManagerState)
    (P : ManagerState → Prop) :
    ∀ (l : List α), (∀ st a, a ∈ l → P st → P (f st a)) →
      ∀ st, P st → P (l.foldl f st) := by
  intro l
  induction l with
  | nil => intro _ st h; exact h
  | cons a rest ih =>
    intro hstep st h
    rw [List.foldl_cons]
    exact ih (fun st' b hb h' => hstep st' b (List.mem_cons_of_mem _ hb) h')
      (f st a) (hstep st a (List.mem_cons_self _ _) h)

/-- The relationship update preserves the graph invariant: edges are added in
both directions at once, between the canonical id of the tracked entity and
canonical ids of `recent_entities` members — all of which are store keys. -/
theorem updRel_graphWF (s : ManagerState) (idx : Nat)
    (hg : graphWF s) (hr : recentWF s)
    (hcid : ∃ c, (s.objs.getD idx defaultObj).canonicalId = some c ∧
      c ∈ s.store.map Prod.fst) :
    graphWF (updateRelationships s idx) := by
  obtain ⟨c, hc, hck⟩ := hcid
  unfold updateRelationships
  refine (foldl_pres _
    (fun st => st.store = s.store ∧
      (∀ i2, objView (st.objs.getD i2 defaultObj) = objView (s.objs.getD i2 defaultObj)) ∧
      graphWF st)
    _ ?_ s ⟨rfl, fun _ => rfl, hg⟩).2.2
  intro st a ha hP
  obtain ⟨hPs, hPv, hPg⟩ := hP
  obtain ⟨hPsym, hPcl⟩ := hPg
  have hmem : a ∈ s.recent := List.mem_of_mem_filter ha
  dsimp only
  split
  · refine ⟨hPs, ?_, ?_, ?_⟩
    · intro i2
      exact (view_getD_set objView st.objs idx i2 (fun o => relAdd o _)
        (fun o => objView_relAdd o _)).trans (hPv i2)
    · intro p hp
      rcases addEdge_mem.mp hp with hp' | rfl
      · rcases addEdge_mem.mp hp' with hp'' | rfl
        · exact addEdge_mem.mpr (Or.inl (addEdge_mem.mpr (Or.inl (hPsym p hp''))))
        · exact addEdge_mem.mpr (Or.inr rfl)
      · exact addEdge_mem.mpr (Or.inl (addEdge_mem.mpr (Or.inr rfl)))
    · have heCid : (s.objs.getD idx defaultObj).canonicalId.getD "" = c := by
        rw [hc]; rfl
      have hoCid : ∃ c2, (st.objs.getD a defaultObj).canonicalId = some c2 ∧
          c2 ∈ s.store.map Prod.fst := by
        obtain ⟨_, c2, hc2, hkc2⟩ := hr a hmem
        exact ⟨c2, by rw [(objView_fields (hPv a)).2.2.1]; exact hc2, hkc2⟩
      obtain ⟨c2, hc2, hkc2⟩ := hoCid
      intro p hp
      rcases addEdge_mem.mp hp with hp' | rfl
      · rcases addEdge_mem.mp hp' with hp'' | rfl
        · have h3 := hPcl p hp''
          rw [hPs] at h3
          rw [hPs]
          exact h3
        · rw [hPs]
          constructor
          · rw [heCid]; exact hck
          · rw [hc2]; exact hkc2
      · rw [hPs]
        constructor
        · rw [hc2]; exact hkc2
        · rw [heCid]; exact hck
  · exact ⟨hPs, hPv, hPsym, hPcl⟩

/-- `_track_entity` preserves all three well-formedness invariants. -/
theorem trackEntity_WF (s : ManagerState) (e : EntityObj) (h : stateWF s) :
    stateWF (trackEntity s e) := by
  obtain ⟨hstore, hrec, hgraph⟩ := h
  have main : ∀ (O : List EntityObj) (cid : String),
      O.length = s.objs.length →
      (∀ i, i < s.objs.length →
        coreView (O.getD i defaultObj) = coreView (s.objs.getD i defaultObj)) →
      stateWF (updateRelationships
        { s with objs := O ++ [{ e with canonicalId := some cid }],
                 store := assocSet s.store cid s.objs.length,
                 recent := pushRecent s.recent s.objs.length }
        s.objs.length) := by
    intro O cid hOlen hOview
    have hlen2 : (O ++ [{ e with canonicalId := some cid }]).length = s.objs.length + 1 := by
      simp [hOlen]
    have hRECstore : storeWF
        { s with objs := O ++ [{ e with canonicalId := some cid }],
                 store := assocSet s.store cid s.objs.length,
                 recent := pushRecent s.recent s.objs.length } := by
      intro p hp
      dsimp only at hp ⊢
      rw [hlen2]
      rcases assocSet_mem hp with hp' | rfl
      · have h2 := hstore p hp'
        omega
      · omega
    have hRECrec : recentWF
        { s with objs := O ++ [{ e with canonicalId := some cid }],
                 store := assocSet s.store cid s.objs.length,
                 recent := pushRecent s.recent s.objs.length } := by
      intro i hi
      dsimp only at hi ⊢
      rcases pushRecent_mem hi with hi' | rfl
      · obtain ⟨hb, c2, hc2, hkc2⟩ := hrec i hi'
        refine ⟨by rw [hlen2]; omega, c2, ?_, keys_assocSet_mono hkc2⟩
        rw [getD_append_lt _ _ _ _ (by omega)]
        rw [(coreView_fields (hOview i hb)).2.2]
        exact hc2
      · refine ⟨by rw [hlen2]; omega, cid, ?_, key_mem_assocSet _ _ _⟩
        rw [getD_append_at _ _ _ _ hOlen]
    have hRECgraph : graphWF
        { s with objs := O ++ [{ e with canonicalId := some cid }],
                 store := assocSet s.store cid s.objs.length,
                 recent := pushRecent s.recent s.objs.length } := by
      constructor
      · exact hgraph.1
      · intro p hp
        have h2 := hgraph.2 p hp
        exact ⟨keys_assocSet_mono h2.1, keys_assocSet_mono h2.2⟩
    have hcid : ∃ c, ((O ++ [{ e with canonicalId := some cid }]).getD
          s.objs.length defaultObj).canonicalId = some c ∧
        c ∈ (assocSet s.store cid s.objs.length).map Prod.fst :=
      ⟨cid, by rw [getD_append_at _ _ _ _ hOlen], key_mem_assocSet _ _ _⟩
    refine ⟨?_, ?_, ?_⟩
    · intro p hp
      rw [(updRel_sameCore _ _).1] at hp
      rw [(updRel_sameCore _ _).2.2.2.2.2.2.1]
      exact hRECstore p hp
    · intro i hi
      rw [(updRel_sameCore _ _).2.1] at hi
      obtain ⟨hb, c2, hc2, hkc2⟩ := hRECrec i hi
      refine ⟨by rw [(updRel_sameCore _ _).2.2.2.2.2.2.1]; exact hb, c2, ?_, ?_⟩
      · rw [(updRel_getD_cid _ _ _).1]
        exact hc2
      · rw [(updRel_sameCore _ _).1]
        exact hkc2
    · exact updRel_graphWF _ _ hRECgraph hRECrec hcid
  unfold trackEntity
  split
  · unfold trackMerge
    dsimp only
    exact main _ _ (List.length_set _ _ _)
      (fun i _ => view_getD_set coreView s.objs _ i (fun o => aliasAdd o e.text)
        (fun o => coreView_aliasAdd o _))
  · unfold trackFresh
    dsimp only
    exact main s.objs (freshCid s e) rfl (fun _ _ => rfl)

theorem trackAll_WF : ∀ (es : List EntityObj) (s : ManagerState),
    stateWF s → stateWF (trackAll s es).1 := by
  intro es
  induction es with
  | nil => intro s h; exact h
  | cons e rest ih => intro s h; exact ih (trackEntity s e) (trackEntity_WF s e h)

theorem processTurn_WF {s : ManagerState} {inp : TurnInput} {s' : ManagerState}
    {t : TurnRec} (h : processTurn s inp = .ok (s', t)) (hwf : stateWF s) :
    stateWF s' := by
  unfold processTurn at h
  cases hex : extractEntities s.currentTurnId inp.ts inp.mentions with
  | error e =>
    rw [hex] at h
    exact absurd h (by simp [Bind.bind, Except.bind])
  | ok es =>
    rw [hex] at h
    simp only [Bind.bind, Except.bind, pure, Except.pure, Except.ok.injEq,
      Prod.mk.injEq] at h
    rw [← h.1]
    exact trackAll_WF es s hwf

theorem runTurns_WF : ∀ (inputs : List TurnInput) (s : ManagerState),
    stateWF s → stateWF (runTurns s inputs) := by
  intro inputs
  induction inputs with
  | nil => intro s h; exact h
  | cons inp rest ih =>
    intro s h
    unfold runTurns
    rw [List.foldl_cons]
    cases hp : processTurn s inp with
    | ok p =>
      have h1 : stateWF p.1 := processTurn_WF (by rw [hp]) h
      simpa [runTurns, hp] using ih p.1 h1
    | error e => simpa [runTurns, hp] using ih s h

/-- C8: after any sequence of processed turns, the entity relationship graph
is symmetric — every edge `(a, b)` has its reverse `(b, a)` — and every
canonical id appearing in the graph is a key of the session entity store. -/
theorem graph_symmetric_and_closed (inputs : List TurnInput) (a b : String) :
    ((a, b) ∈ (runTurns initState inputs).graph →
      (b, a) ∈ (runTurns initState inputs).graph) ∧
    ((a, b) ∈ (runTurns initState inputs).graph →
      a ∈ (runTurns initState inputs).store.map Prod.fst ∧
      b ∈ (runTurns initState inputs).store.map Prod.fst) := by
  have init : stateWF initState := by
    refine ⟨?_, ?_, ?_, ?_⟩
    · intro p hp; simp [initState] at hp
    · intro i hi; simp [initState] at hi
    · intro p hp; simp [initState] at hp
    · intro p hp; simp [initState] at hp
  have hwf := runTurns_WF inputs initState init
  exact ⟨fun hm => hwf.2.2.1 (a, b) hm, fun hm => hwf.2.2.2 (a, b) hm⟩

set_option maxRecDepth 100000 in
/-- Witness for `graph_symmetric_and_closed` on a concrete two-entity turn. -/
theorem graph_symmetric_witness :
    (("PERSON_0", "ORG_1") ∈ (runTurns initState [c8input]).graph) ∧
    (("ORG_1", "PERSON_0") ∈ (runTurns initState [c8input]).graph) ∧
    ("PERSON_0" ∈ (runTurns initState [c8input]).store.map Prod.fst ∧
      "ORG_1" ∈ (runTurns initState [c8input]).store.map Prod.fst) := by
  refine ⟨by decide, ?_, ?_⟩
  · exact (graph_symmetric_and_closed [c8input] "PERSON_0" "ORG_1").1 (by decide)
  · exact (graph_symmetric_and_closed [c8input] "PERSON_0" "ORG_1").2 (by decide)

end Planner
